import Mathlib

/-!
Verification of the NLGC core (nlgc/_nlgc.py, nlgc/opt/opt.py, nlgc/opt/e_step.py)
against its natural-language specification.

The development shallowly embeds the arithmetic and control flow of the
relevant source functions over exact rationals (floats are modelled as ℚ)
and settles each claim as a theorem.
-/

/- ---------------------------------------------------------------------
   EM loop iteration structure (NeuraLVAR._fit, opt.py lines 124-168)

   The loop body appends one log-likelihood value per iteration to `lls`;
   for i > 0 it breaks when |((lls[i-1] - lls[i]) / lls[i-1])| < rel_tol
   and rel_q_change < rel_tol, where rel_q_change is the value produced
   by the previous iteration's M-step.
   `_learn_reduced_model` (nlgc/_nlgc.py line 421) then records
   `conv_flag = len(model_r._lls[0]) == kwargs['max_iter']`.
   --------------------------------------------------------------------- -/

/-- Stopping test of the EM loop at iteration `i ≥ 1` (opt.py lines 139-141):
`ll i` is the log-likelihood appended at iteration `i`, `rq n` the
`rel_q_change` left by iteration `n`'s M-step. -/
def stopCond (ll rq : Nat → ℚ) (relTol : ℚ) (i : Nat) : Bool :=
  decide (|(ll (i - 1) - ll i) / ll (i - 1)| < relTol ∧ rq (i - 1) < relTol)

/-- Trace of log-likelihood values appended by `for i in range(max_iter)`:
iteration `i` appends `ll i`, then breaks if `i > 0` and the stop test holds.
`fuel` is the number of remaining loop indices. -/
def emLLTrace (ll : Nat → ℚ) (stop : Nat → Bool) : Nat → Nat → List ℚ
  | 0, _ => []
  | fuel + 1, i => ll i :: (if 0 < i ∧ stop i then [] else emLLTrace ll stop fuel (i + 1))

/-- Convergence flag recorded for a reduced model
(nlgc/_nlgc.py line 421): `len(model_r._lls[0]) == max_iter`. -/
def convFlagModel (ll rq : Nat → ℚ) (relTol : ℚ) (maxIter : Nat) : Bool :=
  (emLLTrace ll (stopCond ll rq relTol) maxIter 0).length == maxIter

/- ---------------------------------------------------------------------
   Steady-state Kalman forward pass (sskf / sskf_prediction,
   e_step.py lines 90-114 and 325-350)

   Row 0 of the predicted sequence `_x` is set to zero; for i > 0,
   `_x[i] = a x_[i-1]`; the filtered row is `x_[i] = _x[i] + k (y[i] - f _x[i])`;
   sskf_prediction additionally returns `pred[i] = f _x[i]`.
   --------------------------------------------------------------------- -/

/-- One joint forward recursion producing (predicted `_x[i]`, filtered `x_[i]`)
pairs, shared verbatim by `sskf` and `sskf_prediction`. -/
def sskfForward {dx dy : Nat} (a : Matrix (Fin dx) (Fin dx) ℚ)
    (f : Matrix (Fin dy) (Fin dx) ℚ) (k : Matrix (Fin dx) (Fin dy) ℚ)
    (y : Nat → Fin dy → ℚ) : Nat → (Fin dx → ℚ) × (Fin dx → ℚ)
  | 0 =>
    let xp : Fin dx → ℚ := 0
    (xp, xp + k.mulVec (fun c => y 0 c - f.mulVec xp c))
  | n + 1 =>
    let xp := a.mulVec (sskfForward a f k y n).2
    (xp, xp + k.mulVec (fun c => y (n + 1) c - f.mulVec xp c))

/-- The one-step-ahead predicted latent sequence `_x` of the smoother. -/
def sskfPredictedLatent {dx dy : Nat} (a : Matrix (Fin dx) (Fin dx) ℚ)
    (f : Matrix (Fin dy) (Fin dx) ℚ) (k : Matrix (Fin dx) (Fin dy) ℚ)
    (y : Nat → Fin dy → ℚ) (i : Nat) : Fin dx → ℚ :=
  (sskfForward a f k y i).1

/-- Observation-space prediction returned by `sskf_prediction`
(e_step.py line 341): `pred[i] = f.dot(_x[i])`. -/
def sskfPredictionObs {dx dy : Nat} (a : Matrix (Fin dx) (Fin dx) ℚ)
    (f : Matrix (Fin dy) (Fin dx) ℚ) (k : Matrix (Fin dx) (Fin dy) ℚ)
    (y : Nat → Fin dy → ℚ) (i : Nat) : Fin dy → ℚ :=
  f.mulVec (sskfPredictedLatent a f k y i)

/- ---------------------------------------------------------------------
   Coefficient reshaping (NeuraLVAR._ravel_a / _unravel_a,
   opt.py lines 359-369)

   `_ravel_a`: (p, m, m) --swapaxes(0,1)--> (m, p, m) --reshape--> (m, m*p),
   so entry (i, l*m + j) of the result is a[l, i, j].
   `_unravel_a`: (m, m*p) --reshape--> (m, p, m) --swapaxes--> (p, m, m).
   Arrays are embedded as total index functions; only indices within the
   numpy shape are meaningful.
   --------------------------------------------------------------------- -/

/-- Entry function of `_ravel_a`: result (i, c) with c = l*m + j holds a l i j. -/
def ravelA (m : Nat) (a : Nat → Nat → Nat → ℚ) : Nat → Nat → ℚ :=
  fun i c => a (c / m) i (c % m)

/-- Entry function of `_unravel_a`: result (l, i, j) holds b i (l*m + j). -/
def unravelA (m : Nat) (b : Nat → Nat → ℚ) : Nat → Nat → Nat → ℚ :=
  fun l i j => b i (l * m + j)

/- ---------------------------------------------------------------------
   Link hypothesis stage (_gc_extraction, nlgc/_nlgc.py lines 323-392)

   sparsity[r, c] = ||a[:, r, c]||_1 * q[c, c]           (line 332)
   For (i, j) in product(ROIs, ROIs): skip i == j; with
   target = (j*e, ..., j*e+e-1) and source = (i*e, ..., i*e+e-1), skip if
   sparsity[target, source].sum() <= sparsity_factor * sparsity[target, target].sum()
   (numpy pairs the two index tuples elementwise); else append (j, i).
   Then dev_raw[indices]  = 2 * model_f.ll
        dev_raw[indices] -= 2 * ll_r[indices]
   over the zero-initialized (nx, nx) matrix dev_raw.
   --------------------------------------------------------------------- -/

/-- Model of `_expand_roi_indices_as_tup` (nlgc/_nlgc.py line 690). -/
def expandRoiIndices (regIdx emod : Nat) : List Nat :=
  (List.range emod).map (fun k => regIdx * emod + k)

/-- Sparsity matrix of the full model (nlgc/_nlgc.py line 332):
column-wise L1 mass of the coefficient tensor times the diagonal of q. -/
def sparsityMat (p : Nat) (a : Nat → Nat → Nat → ℚ) (qdiag : Nat → ℚ) :
    Nat → Nat → ℚ :=
  fun r c => ((List.range p).map (fun l => |a l r c|)).sum * qdiag c

/-- Elementwise-paired fancy-indexed sum `sp[rows, cols].sum()` for two
index tuples of equal length. -/
def pairedMass (sp : Nat → Nat → ℚ) (rows cols : List Nat) : ℚ :=
  ((rows.zip cols).map (fun rc => sp rc.1 rc.2)).sum

/-- Ordered pairs `(i, j)` in the iteration order of
`itertools.product(ROIs, repeat=2)`. -/
def roiPairs (rois : List Nat) : List (Nat × Nat) :=
  rois.flatMap (fun i => rois.map (fun j => (i, j)))

/-- Model of `links_to_check` (nlgc/_nlgc.py lines 345-356): self-pairs are skipped,
a pair is skipped when its paired cross mass is `≤ sparsity_factor` times its
paired self mass, and the surviving pair is recorded as `(j, i)` =
(target region, source region). -/
def linksToCheck (rois : List Nat) (emod : Nat) (sp : Nat → Nat → ℚ)
    (sparsityFactor : ℚ) : List (Nat × Nat) :=
  (roiPairs rois).filterMap (fun ij =>
    if ij.1 = ij.2 then none
    else
      let target := expandRoiIndices ij.2 emod
      let source := expandRoiIndices ij.1 emod
      if pairedMass sp target source ≤ sparsityFactor * pairedMass sp target target
      then none
      else some (ij.2, ij.1))

/-- Numpy fancy-indexed assignment `d[indices] = v` with gather/scatter
semantics: every listed entry receives its value from `v`, all other
entries keep their value from `d`. -/
def scatterWrite (d : Nat → Nat → ℚ) (links : List (Nat × Nat))
    (v : Nat → Nat → ℚ) : Nat → Nat → ℚ :=
  fun j i => if (j, i) ∈ links then v j i else d j i

/-- The aggregated deviance matrix (nlgc/_nlgc.py lines 323, 391-392):
start from zeros, set the surviving entries to `2 * model_f.ll`, then
subtract `2 * ll_r` at the same entries (in-place numpy subtraction gathers
the current values before scattering). -/
def devRawModel (links : List (Nat × Nat)) (llFull : ℚ) (llRed : Nat → Nat → ℚ) :
    Nat → Nat → ℚ :=
  let d0 : Nat → Nat → ℚ := fun _ _ => 0
  let d1 := scatterWrite d0 links (fun _ _ => 2 * llFull)
  scatterWrite d1 links (fun j i => d1 j i - 2 * llRed j i)

/- ---------------------------------------------------------------------
   Restriction guard of the public fit (NeuraLVAR.fit, opt.py lines 339-341)

   `if (restriction is None or re.search('->', restriction)) is False:`
   Python `or` returns its first operand when that operand is truthy and its
   second operand otherwise; `re.search` returns a Match object or None, and
   `restriction is None` returns the object True or the object False.  The
   guard then compares the resulting object with the object `False` by
   identity.
   --------------------------------------------------------------------- -/

/-- Python objects that the guard expression can evaluate to. -/
inductive PyGuardVal where
  | pyTrue
  | pyFalse
  | pyNone
  | pyMatch
  deriving DecidableEq

/-- Model of `re.split` on the arrow separator: split the character list at each leftmost
occurrence of the two-character separator. -/
def splitArrow : List Char → List (List Char)
  | [] => [[]]
  | '-' :: '>' :: rest => [] :: splitArrow rest
  | c :: rest =>
    match splitArrow rest with
    | [] => [[c]]
    | chunk :: chunks => (c :: chunk) :: chunks

/-- Model of `re.split` on commas: split the character list at each comma. -/
def splitComma : List Char → List (List Char)
  | [] => [[]]
  | ',' :: rest => [] :: splitComma rest
  | c :: rest =>
    match splitComma rest with
    | [] => [[c]]
    | chunk :: chunks => (c :: chunk) :: chunks

/-- Whether the string contains the separator `->` (`re.search('->', s)`
succeeds exactly when `->` occurs as a substring). -/
def containsArrow (s : List Char) : Bool := (splitArrow s).length != 1

/-- Value of the expression `restriction is None or re.search('->', restriction)`. -/
def fitGuardExpr (restriction : Option (List Char)) : PyGuardVal :=
  match restriction with
  | none => .pyTrue
  | some s => if containsArrow s then .pyMatch else .pyNone

/-- Whether the `raise ValueError` branch of the guard runs:
the expression's value is compared with the object `False` by identity. -/
def fitGuardRaises (restriction : Option (List Char)) : Bool :=
  fitGuardExpr restriction == .pyFalse

/-- Validation the guard's own error message describes: reject a non-None
restriction lacking the `->` separator. -/
def fitGuardIntended (restriction : Option (List Char)) : Bool :=
  match restriction with
  | none => false
  | some s => !containsArrow s

/- ---------------------------------------------------------------------
   Restriction parsing and range check (NeuraLVAR._fit, opt.py lines 108-122)

   i_s, j_s = re.split(r'->', restriction)     -- exactly two parts, else
                                                  the unpacking raises
   i_s = [int(i) for i in re.split(r',', i_s)]  -- int() raises on bad text
   if any(i >= m for i in i_s) or any(j >= m for j in j_s): raise ValueError
   The EM loop (for i in range(max_iter)) only starts after this check.
   --------------------------------------------------------------------- -/

/-- Exceptions relevant to the embedded control flow.  Numpy's LinAlgError
is a subclass of Python's ValueError. -/
inductive PyErr where
  | linAlgError
  | valueError
  | otherError
  deriving DecidableEq

/-- Which exceptions an `except ValueError` clause catches
(LinAlgError included, being a ValueError subclass). -/
def isValueErrorClass : PyErr → Bool
  | .linAlgError => true
  | .valueError => true
  | .otherError => false

/-- Value of a decimal digit character, `none` for a non-digit. -/
def digitOfChar (c : Char) : Option Nat :=
  if c.isDigit then some (c.toNat - 48) else none

/-- Accumulate decimal digits left to right; `none` on a non-digit or when
no digit was seen. -/
def digitsToNat : List Char → Option Nat → Option Nat
  | [], acc => acc
  | c :: rest, acc =>
    match digitOfChar c, acc with
    | some d, some n => digitsToNat rest (some (n * 10 + d))
    | some d, none => digitsToNat rest (some d)
    | none, _ => none

/-- Python `int(s)` on a restriction piece: an optional minus sign followed
by decimal digits; anything else raises ValueError, modelled as `none`. -/
def parseIntChars : List Char → Option Int
  | [] => none
  | '-' :: rest => (digitsToNat rest none).map (fun n => -(n : Int))
  | cs => (digitsToNat cs none).map (fun n => (n : Int))

/-- Split a restriction side on commas and parse each piece as an integer;
`int()` failure is a ValueError, modelled as `none`. -/
def parseIndexGroup (s : List Char) : Option (List Int) :=
  (splitComma s).mapM parseIntChars

/-- Parse `'i1,i2,...->j1,j2,...'` into the two integer groups; `none` when
the arrow split does not give exactly two parts (the two-name unpacking
raises) or an int fails to parse. -/
def parseRestriction (s : List Char) : Option (List Int × List Int) :=
  match splitArrow s with
  | [l, r] =>
    match parseIndexGroup l, parseIndexGroup r with
    | some is, some js => some (is, js)
    | _, _ => none
  | _ => none

/-- The zeroed-index pairs built from the parsed groups (opt.py lines 115-120):
for each (i, j), the rows `[j] * p` paired with columns `range(i, m*p, m)`. -/
def zeroedIndexOf (m p : Nat) (is js : List Int) : List (Int × Int) :=
  (is.flatMap (fun i => js.map (fun j => (i, j)))).flatMap
    (fun ij => (List.range p).map (fun l => (ij.2, ij.1 + l * m)))

/-- Pre-EM phase of `_fit` for a given restriction: parse, range-check, and
produce the zeroed index; any failure is a ValueError raised before the EM
loop starts. -/
def fitRestrictionPhase (m p : Nat) (restriction : Option (List Char)) :
    Except PyErr (Option (List (Int × Int))) :=
  match restriction with
  | none => .ok none
  | some s =>
    match parseRestriction s with
    | none => .error .valueError
    | some (is, js) =>
      if is.any (fun i => (m : Int) ≤ i) || js.any (fun j => (m : Int) ≤ j) then
        .error .valueError
      else
        .ok (some (zeroedIndexOf m p is js))

/-- Run of `_fit` down to the recorded log-likelihood trace: the restriction phase
runs first; only on success does the EM loop run and produce its trace. -/
def fitModelRun (m p maxIter : Nat) (restriction : Option (List Char))
    (ll rq : Nat → ℚ) (relTol : ℚ) : Except PyErr (List ℚ) :=
  match fitRestrictionPhase m p restriction with
  | .error e => .error e
  | .ok _ => .ok (emLLTrace ll (stopCond ll rq relTol) maxIter 0)

/-- Argument flow of `NeuraLVAR.fit` (opt.py lines 339-344): after the (inert)
restriction guard, `_fit` is invoked with the shared strength `lambda2` and
with the independent pair hard-coded to `lb=None, la=None`. -/
def fitForwardedStrengths (restriction : Option (List Char))
    (lambda2 _lb _la : Option ℚ) : Except PyErr (Option ℚ × Option ℚ × Option ℚ) :=
  if fitGuardRaises restriction then .error .valueError
  else .ok (lambda2, none, none)

/- ---------------------------------------------------------------------
   Riccati solver fallback chain (sskf, e_step.py lines 48-56)

   try:    solve_discrete_are(..., balanced=False)
   except np.linalg.LinAlgError:  solve_discrete_are(..., balanced=True)
   except ValueError:
       try:    control.dare(..., stabilizing=True)
       except ValueError:  control.dare(..., stabilizing=False)
   Except clauses are tried in order against the exception of their own try
   block only; an exception raised inside a handler propagates.
   --------------------------------------------------------------------- -/

/-- The four solver configurations of the chain. -/
inductive RiccatiSolver where
  | unbalanced
  | balanced
  | stabilizing
  | nonStabilizing
  deriving DecidableEq

/-- Python try/except block: on success return the body's value; on an
exception run the first clause whose guard matches, else re-raise. -/
def pyTryExcept {α : Type} (body : Except PyErr α)
    (clauses : List ((PyErr → Bool) × (PyErr → Except PyErr α))) : Except PyErr α :=
  match body with
  | .ok v => .ok v
  | .error e =>
    match clauses.find? (fun c => c.1 e) with
    | some c => c.2 e
    | none => .error e

/-- The Riccati solve of `sskf`, given each configuration's outcome. -/
def sskfRiccatiSolve {α : Type} (res : RiccatiSolver → Except PyErr α) :
    Except PyErr α :=
  pyTryExcept (res .unbalanced)
    [(fun e => e == .linAlgError, fun _ => res .balanced),
     (isValueErrorClass, fun _ =>
        pyTryExcept (res .stabilizing)
          [(isValueErrorClass, fun _ => res .nonStabilizing)])]

/- ---------------------------------------------------------------------
   Regularization-path selection (NeuraLVARCV.fit, opt.py lines 625-638,
   and compute_es_criterion, opt.py lines 677-688)

   mse_path[0][fold, grid] holds the held-out log-likelihood,
   mse_path[1][fold, grid] holds lambda * ||A||_1 (penalized norm);
   es_path[grid] = sum of squared across-fold prediction fluctuations over
   the squared across-fold mean prediction energy.
   if use_es: index = mse_path[0].mean(axis=0).argmax()
              best  = lambda_range[nanargmin(es_path[:index])]   -- or, when
                      that raises ValueError (empty slice), lambda_range[index]
   else:      best  = lambda_range[mse_path[1].mean(axis=0).argmax()]
   --------------------------------------------------------------------- -/

/-- First index of the maximum of a list (`np.argmax`). -/
def argmaxIdx : List ℚ → Nat
  | [] => 0
  | [_] => 0
  | x :: y :: xs =>
    if (y :: xs).getD (argmaxIdx (y :: xs)) 0 ≤ x then 0 else argmaxIdx (y :: xs) + 1

/-- First index of the minimum of a list (`np.nanargmin` without NaNs). -/
def argminIdx : List ℚ → Nat
  | [] => 0
  | [_] => 0
  | x :: y :: xs =>
    if x ≤ (y :: xs).getD (argminIdx (y :: xs)) 0 then 0 else argminIdx (y :: xs) + 1

/-- Column means of a fold-major matrix (`mat.mean(axis=0)` over `n` columns). -/
def colMeansList (rows : List (List ℚ)) (n : Nat) : List ℚ :=
  (List.range n).map (fun j => (rows.map (fun r => r.getD j 0)).sum / rows.length)

/-- The estimation-stability statistic (compute_es_criterion, opt.py
lines 677-688) with the repeat weights the source fixes to 1: for each grid
point, the summed squared deviation of each fold's flattened prediction from
the across-fold mean, divided by the squared energy of that mean.
`pred` is fold-major, then grid-major, each entry a flattened prediction. -/
def esCriterionModel (pred : List (List (List ℚ))) (nGrid dim : Nat) : List ℚ :=
  (List.range nGrid).map (fun j =>
    let ps := pred.map (fun foldP => foldP.getD j [])
    let mn := (List.range dim).map (fun c => (ps.map (fun v => v.getD c 0)).sum / ps.length)
    let fluct := (ps.map (fun v =>
      ((List.range dim).map (fun c => (v.getD c 0 - mn.getD c 0) ^ 2)).sum)).sum
    fluct / ((mn.map (fun x => x ^ 2)).sum))

/-- The selection step of `NeuraLVARCV.fit` (opt.py lines 628-638), given the
two criterion rows (fold-major), the stability path and the strength grid.
`np.nanargmin` raises ValueError exactly when its argument is empty, which
the source catches with the fallback `lambda_range[index]`. -/
def selectBestLambda (useEs : Bool) (cv0 cv1 : List (List ℚ))
    (esPath lams : List ℚ) : ℚ :=
  if useEs then
    let index := argmaxIdx (colMeansList cv0 lams.length)
    let cands := esPath.take index
    if cands.isEmpty then lams.getD index 0
    else lams.getD (argminIdx cands) 0
  else
    lams.getD (argmaxIdx (colMeansList cv1 lams.length)) 0

/-- The claim's reading of the selection step, which names the
sparsity-penalized-norm criterion (row 1) as the criterion maximized in the
estimation-stability branch as well. -/
def selectBestLambdaClaimed (useEs : Bool) (_cv0 cv1 : List (List ℚ))
    (esPath lams : List ℚ) : ℚ :=
  if useEs then
    let index := argmaxIdx (colMeansList cv1 lams.length)
    let cands := esPath.take index
    if cands.isEmpty then lams.getD index 0
    else lams.getD (argminIdx cands) 0
  else
    lams.getD (argmaxIdx (colMeansList cv1 lams.length)) 0

/-- Selection as run by `fit`: the stability path is computed from the
held-out prediction array by `compute_es_criterion`. -/
def selectLambdaFromRun (useEs : Bool) (cv0 cv1 : List (List ℚ))
    (pred : List (List (List ℚ))) (dim : Nat) (lams : List ℚ) : ℚ :=
  selectBestLambda useEs cv0 cv1 (esCriterionModel pred lams.length dim) lams

/- ---------------------------------------------------------------------
   Helper lemmas
   --------------------------------------------------------------------- -/

/-- Defining equation of `argmaxIdx` on a list of length at least two. -/
theorem argmaxIdx_cons_cons (x y : ℚ) (ys : List ℚ) :
    argmaxIdx (x :: y :: ys) =
      if (y :: ys).getD (argmaxIdx (y :: ys)) 0 ≤ x then 0
      else argmaxIdx (y :: ys) + 1 := rfl

/-- Defining equation of `argminIdx` on a list of length at least two. -/
theorem argminIdx_cons_cons (x y : ℚ) (ys : List ℚ) :
    argminIdx (x :: y :: ys) =
      if x ≤ (y :: ys).getD (argminIdx (y :: ys)) 0 then 0
      else argminIdx (y :: ys) + 1 := rfl

/-- The EM trace has full length `fuel` exactly when the stop test fails at
every iteration index strictly between the start and the final one. -/
theorem emLLTrace_length_eq_iff (ll : Nat → ℚ) (stop : Nat → Bool) :
    ∀ (fuel i : Nat), (emLLTrace ll stop fuel i).length = fuel ↔
      (∀ k, i ≤ k → k + 1 < i + fuel → 0 < k → stop k = false) := by
  intro fuel
  induction fuel with
  | zero =>
    intro i
    simp only [emLLTrace, List.length_nil]
    constructor
    · intro _ k hik hk _
      omega
    · intro _
      trivial
  | succ n ih =>
    intro i
    by_cases hc : 0 < i ∧ stop i = true
    · have htr : emLLTrace ll stop (n + 1) i = [ll i] := by
        simp [emLLTrace, hc]
      rw [htr]
      simp only [List.length_singleton]
      constructor
      · intro h1 k hik hk _
        omega
      · intro hall
        by_contra hne
        have hn : 0 < n := by omega
        have hfalse := hall i le_rfl (by omega) hc.1
        rw [hc.2] at hfalse
        cases hfalse
    · have htr : emLLTrace ll stop (n + 1) i = ll i :: emLLTrace ll stop n (i + 1) := by
        simp [emLLTrace, hc]
      rw [htr, List.length_cons]
      constructor
      · intro h k hik hk hkpos
        rcases Nat.eq_or_lt_of_le hik with heq | hlt
        · subst heq
          cases hstop : stop i
          · rfl
          · exact absurd ⟨hkpos, hstop⟩ hc
        · exact (ih (i + 1)).1 (by omega) k hlt (by omega) hkpos
      · intro hall
        have hlen : (emLLTrace ll stop n (i + 1)).length = n :=
          (ih (i + 1)).2 (fun k hik hk hkpos => hall k (by omega) (by omega) hkpos)
        omega

/-- The fit guard of `NeuraLVAR.fit` never raises: the guarded expression
evaluates to `True`, a Match object, or `None`, never to the object `False`. -/
theorem fitGuardRaises_eq_false (restriction : Option (List Char)) :
    fitGuardRaises restriction = false := by
  cases restriction with
  | none => rfl
  | some s =>
    by_cases h : containsArrow s = true
    · simp [fitGuardRaises, fitGuardExpr, h]
    · simp [fitGuardRaises, fitGuardExpr, h]

/-- Membership in the product iteration of `itertools.product(ROIs, repeat=2)`. -/
theorem mem_roiPairs {rois : List Nat} {i j : Nat} :
    (i, j) ∈ roiPairs rois ↔ i ∈ rois ∧ j ∈ rois := by
  simp only [roiPairs, List.mem_flatMap, List.mem_map, Prod.mk.injEq]
  constructor
  · rintro ⟨a, ha, b, hb, rfl, rfl⟩
    exact ⟨ha, hb⟩
  · rintro ⟨hi, hj⟩
    exact ⟨i, hi, j, hj, rfl, rfl⟩

/-- Characterization of the surviving links: `(j, i)` survives exactly when
both regions are candidates, the pair is not a self pair, and the paired
cross mass strictly exceeds `sparsity_factor` times the paired self mass. -/
theorem mem_linksToCheck {rois : List Nat} {emod : Nat} {sp : Nat → Nat → ℚ}
    {sf : ℚ} {j i : Nat} :
    (j, i) ∈ linksToCheck rois emod sp sf ↔
      i ∈ rois ∧ j ∈ rois ∧ i ≠ j ∧
      sf * pairedMass sp (expandRoiIndices j emod) (expandRoiIndices j emod) <
        pairedMass sp (expandRoiIndices j emod) (expandRoiIndices i emod) := by
  unfold linksToCheck
  rw [List.mem_filterMap]
  constructor
  · rintro ⟨⟨a, b⟩, hmem, hf⟩
    by_cases hab : a = b
    · simp [hab] at hf
    · simp only [if_neg hab] at hf
      by_cases hle : pairedMass sp (expandRoiIndices b emod) (expandRoiIndices a emod) ≤
          sf * pairedMass sp (expandRoiIndices b emod) (expandRoiIndices b emod)
      · rw [if_pos hle] at hf
        cases hf
      · rw [if_neg hle] at hf
        obtain ⟨rfl, rfl⟩ : b = j ∧ a = i := by
          have h2 := Option.some.inj hf
          exact ⟨congrArg Prod.fst h2, congrArg Prod.snd h2⟩
        exact ⟨(mem_roiPairs.mp hmem).1, (mem_roiPairs.mp hmem).2, hab, not_le.mp hle⟩
  · rintro ⟨hi, hj, hij, hlt⟩
    refine ⟨(i, j), mem_roiPairs.mpr ⟨hi, hj⟩, ?_⟩
    simp only [if_neg hij]
    rw [if_neg (not_le.mpr hlt)]

/-- The first-max index is in range for a nonempty list. -/
theorem argmaxIdx_lt : ∀ (l : List ℚ), l ≠ [] → argmaxIdx l < l.length := by
  intro l
  induction l with
  | nil => intro h; exact absurd rfl h
  | cons x xs ih =>
    cases xs with
    | nil => intro _; simp [argmaxIdx]
    | cons y ys =>
      intro _
      rw [argmaxIdx_cons_cons]
      by_cases hcond : (y :: ys).getD (argmaxIdx (y :: ys)) 0 ≤ x
      · rw [if_pos hcond]
        simp
      · rw [if_neg hcond]
        have := ih (by simp)
        simp only [List.length_cons] at this ⊢
        omega

/-- The first-max index attains the maximum. -/
theorem argmaxIdx_spec : ∀ (l : List ℚ), ∀ k, k < l.length →
    l.getD k 0 ≤ l.getD (argmaxIdx l) 0 := by
  intro l
  induction l with
  | nil => intro k hk; simp at hk
  | cons x xs ih =>
    cases xs with
    | nil =>
      intro k hk
      have hk0 : k = 0 := by simpa using hk
      subst hk0
      exact le_refl _
    | cons y ys =>
      intro k hk
      rw [argmaxIdx_cons_cons]
      by_cases hcond : (y :: ys).getD (argmaxIdx (y :: ys)) 0 ≤ x
      · rw [if_pos hcond, List.getD_cons_zero]
        cases k with
        | zero => rw [List.getD_cons_zero]
        | succ kk =>
          have hkk : kk < (y :: ys).length := by
            simpa [Nat.succ_lt_succ_iff] using hk
          rw [List.getD_cons_succ]
          exact le_trans (ih kk hkk) hcond
      · rw [if_neg hcond, List.getD_cons_succ]
        cases k with
        | zero =>
          rw [List.getD_cons_zero]
          exact le_of_lt (lt_of_not_le hcond)
        | succ kk =>
          have hkk : kk < (y :: ys).length := by
            simpa [Nat.succ_lt_succ_iff] using hk
          rw [List.getD_cons_succ]
          exact ih kk hkk

/-- The first-min index is in range for a nonempty list. -/
theorem argminIdx_lt : ∀ (l : List ℚ), l ≠ [] → argminIdx l < l.length := by
  intro l
  induction l with
  | nil => intro h; exact absurd rfl h
  | cons x xs ih =>
    cases xs with
    | nil => intro _; simp [argminIdx]
    | cons y ys =>
      intro _
      rw [argminIdx_cons_cons]
      by_cases hcond : x ≤ (y :: ys).getD (argminIdx (y :: ys)) 0
      · rw [if_pos hcond]
        simp
      · rw [if_neg hcond]
        have := ih (by simp)
        simp only [List.length_cons] at this ⊢
        omega

/-- The first-min index attains the minimum. -/
theorem argminIdx_spec : ∀ (l : List ℚ), ∀ k, k < l.length →
    l.getD (argminIdx l) 0 ≤ l.getD k 0 := by
  intro l
  induction l with
  | nil => intro k hk; simp at hk
  | cons x xs ih =>
    cases xs with
    | nil =>
      intro k hk
      have hk0 : k = 0 := by simpa using hk
      subst hk0
      exact le_refl _
    | cons y ys =>
      intro k hk
      rw [argminIdx_cons_cons]
      by_cases hcond : x ≤ (y :: ys).getD (argminIdx (y :: ys)) 0
      · rw [if_pos hcond, List.getD_cons_zero]
        cases k with
        | zero => rw [List.getD_cons_zero]
        | succ kk =>
          have hkk : kk < (y :: ys).length := by
            simpa [Nat.succ_lt_succ_iff] using hk
          rw [List.getD_cons_succ]
          exact le_trans hcond (ih kk hkk)
      · rw [if_neg hcond, List.getD_cons_succ]
        cases k with
        | zero =>
          rw [List.getD_cons_zero]
          exact le_of_lt (lt_of_not_le hcond)
        | succ kk =>
          have hkk : kk < (y :: ys).length := by
            simpa [Nat.succ_lt_succ_iff] using hk
          rw [List.getD_cons_succ]
          exact ih kk hkk

/-- Reading through `take` agrees with `getD` on in-range indices. -/
theorem getD_take_eq (l : List ℚ) : ∀ (n k : Nat), k < n →
    (l.take n).getD k 0 = l.getD k 0 := by
  induction l with
  | nil => intro n k _; simp
  | cons x xs ih =>
    intro n k hk
    cases n with
    | zero => omega
    | succ nn =>
      cases k with
      | zero => simp
      | succ kk =>
        simp only [List.take_succ_cons, List.getD_cons_succ]
        exact ih nn kk (by omega)

/- ---------------------------------------------------------------------
   Claim theorems
   --------------------------------------------------------------------- -/

/-- C1: for every surviving candidate link `(target j, source i)` enumerated
by the link hypothesis stage, the aggregated deviance matrix holds
`2 * (full-model log-likelihood - reduced-model log-likelihood)` at
`(j, i)`, and every entry not corresponding to a surviving link is zero. -/
theorem devRaw_surviving_links (rois : List Nat) (emod : Nat)
    (sp : Nat → Nat → ℚ) (sf llFull : ℚ) (llRed : Nat → Nat → ℚ) (j i : Nat) :
    ((j, i) ∈ linksToCheck rois emod sp sf →
      devRawModel (linksToCheck rois emod sp sf) llFull llRed j i =
        2 * (llFull - llRed j i)) ∧
    ((j, i) ∉ linksToCheck rois emod sp sf →
      devRawModel (linksToCheck rois emod sp sf) llFull llRed j i = 0) := by
  unfold devRawModel scatterWrite
  constructor
  · intro hmem
    simp only [if_pos hmem]
    ring
  · intro hmem
    simp only [if_neg hmem]

/-- Witness for C1 at a concrete run: two regions, one eigenmode, all
sparsity entries 1, sparsity factor 0, full log-likelihood 3 and reduced
log-likelihood 1 give deviance 4 on the surviving link 0 → 1. -/
theorem devRaw_surviving_links_witness :
    devRawModel (linksToCheck [0, 1] 1 (fun _ _ => 1) 0) 3 (fun _ _ => 1) 1 0 =
      2 * (3 - 1) := by
  have hmem : ((1 : Nat), (0 : Nat)) ∈ linksToCheck [0, 1] 1 (fun _ _ => (1 : ℚ)) 0 := by
    refine mem_linksToCheck.mpr ⟨by simp, by simp, by omega, ?_⟩
    norm_num [pairedMass, expandRoiIndices, List.range_succ, List.range_zero]
  exact (devRaw_surviving_links [0, 1] 1 (fun _ _ => 1) 0 3 (fun _ _ => 1) 1 0).1 hmem

/-- C2 counterexample: with sparsity factor 0 and a full model whose
coefficient block from region 0 into region 1 is exactly zero (so the whole
sparsity matrix is zero), the ordered non-self pair (source 0, target 1) is
discarded — the skip test uses a non-strict comparison — refuting the claim
that sparsity_factor = 0 retains every ordered non-self pair. -/
theorem linksToCheck_sf0_counterexample :
    ¬ (∀ i ∈ [0, 1], ∀ j ∈ [0, 1], i ≠ j →
        ((j, i) ∈ linksToCheck [0, 1] 1
          (sparsityMat 1 (fun _ _ _ => 0) (fun _ => 1)) 0)) := by
  intro hall
  have hmem := hall 0 (by simp) 1 (by simp) (by omega)
  have hlt := (mem_linksToCheck.mp hmem).2.2.2
  norm_num [pairedMass, expandRoiIndices, sparsityMat, List.range_succ, List.range_zero] at hlt

/-- C2 amended: the pre-filter never discards an ordered non-self pair whose
paired cross-regression mass strictly exceeds `sparsity_factor` times the
target's paired self-regression mass; in particular with
`sparsity_factor = 0` every ordered non-self pair with strictly positive
cross mass is retained (pairs whose cross mass is exactly zero are
discarded, as the comparison in the source is non-strict). -/
theorem linksToCheck_retains_strict_cross (rois : List Nat) (emod : Nat)
    (sp : Nat → Nat → ℚ) (sf : ℚ) (i j : Nat) (hi : i ∈ rois) (hj : j ∈ rois)
    (hij : i ≠ j)
    (hcross : sf * pairedMass sp (expandRoiIndices j emod) (expandRoiIndices j emod) <
      pairedMass sp (expandRoiIndices j emod) (expandRoiIndices i emod)) :
    (j, i) ∈ linksToCheck rois emod sp sf :=
  mem_linksToCheck.mpr ⟨hi, hj, hij, hcross⟩

/-- Witness for the amended C2: with unit sparsity entries and factor 0 the
pair (source 0, target 1) survives. -/
theorem linksToCheck_retains_witness :
    ((1 : Nat), (0 : Nat)) ∈ linksToCheck [0, 1] 1 (fun _ _ => 1) 0 :=
  linksToCheck_retains_strict_cross [0, 1] 1 (fun _ _ => 1) 0 0 1
    (by simp) (by simp) (by omega)
    (by norm_num [pairedMass, expandRoiIndices, List.range_succ, List.range_zero])

/-- C3 counterexample: with a constant log-likelihood trace, tolerance 0 and
cap 2 the stop test never holds, the loop runs the full 2 iterations, and the
recorded flag is true — yet the loop did not terminate before the cap, so
the flag is not "true iff terminated before reaching the cap". -/
theorem convFlag_claim_counterexample :
    convFlagModel (fun _ => 1) (fun _ => 0) 0 2 = true ∧
    ¬ ((emLLTrace (fun _ => 1) (stopCond (fun _ => 1) (fun _ => 0) 0) 2 0).length < 2) := by
  have hstop : ∀ k, stopCond (fun _ => (1 : ℚ)) (fun _ => 0) 0 k = false := by
    intro k
    simp only [stopCond, decide_eq_false_iff_not, not_and, not_lt]
    intro h
    exact le_refl 0
  have hlen : (emLLTrace (fun _ => (1 : ℚ))
      (stopCond (fun _ => 1) (fun _ => 0) 0) 2 0).length = 2 := by
    simp [emLLTrace, hstop]
  constructor
  · simp [convFlagModel, hlen]
  · omega

/-- C3 amended: the recorded flag `len(lls) == max_iter` is true exactly when
the stop test fails at every iteration `k` with `1 ≤ k` and `k + 1 < max_iter`
— that is, iff the loop ran all `max_iter` iterations (note a stop detected
exactly at the final iteration also yields a true flag). -/
theorem convFlag_iff_full_run (ll rq : Nat → ℚ) (relTol : ℚ) (maxIter : Nat) :
    convFlagModel ll rq relTol maxIter = true ↔
      (∀ k, 0 < k → k + 1 < maxIter → stopCond ll rq relTol k = false) := by
  unfold convFlagModel
  rw [beq_iff_eq, emLLTrace_length_eq_iff]
  constructor
  · intro h k hkpos hk
    exact h k (Nat.zero_le k) (by omega) hkpos
  · intro h k _ hk hkpos
    exact h k hkpos (by omega)

/-- C4 counterexample: when the unbalanced solve and the balanced solve both
raise the linear-algebra error, the operation fails even though the
stabilizing alternative solver would succeed — the chain does not try all
four configurations before failing fatally. -/
theorem riccati_chain_counterexample :
    let res : RiccatiSolver → Except PyErr ℚ := fun s =>
      match s with
      | .unbalanced => .error .linAlgError
      | .balanced => .error .linAlgError
      | .stabilizing => .ok 0
      | .nonStabilizing => .ok 0
    sskfRiccatiSolve res = .error .linAlgError ∧ res .stabilizing = .ok 0 :=
  ⟨rfl, rfl⟩

/-- C4 amended: the fallback chain is a two-branch decision table, not a
linear four-step chain. On success of the unbalanced solve its value is
returned; on a linear-algebra error the balanced solve's outcome is final
(its failure is fatal, the alternative solvers are not tried); on a plain
value error the stabilizing solver is tried and, if it raises a (subclass
of) ValueError, the non-stabilizing solver's outcome is final; any other
exception propagates fatally. -/
theorem riccati_chain_characterization {α : Type}
    (res : RiccatiSolver → Except PyErr α) :
    (∀ v, res .unbalanced = .ok v → sskfRiccatiSolve res = .ok v) ∧
    (res .unbalanced = .error .linAlgError →
      sskfRiccatiSolve res = res .balanced) ∧
    (res .unbalanced = .error .valueError →
      (∀ v, res .stabilizing = .ok v → sskfRiccatiSolve res = .ok v) ∧
      (∀ e, res .stabilizing = .error e → isValueErrorClass e = true →
        sskfRiccatiSolve res = res .nonStabilizing) ∧
      (res .stabilizing = .error .otherError →
        sskfRiccatiSolve res = .error .otherError)) ∧
    (res .unbalanced = .error .otherError →
      sskfRiccatiSolve res = .error .otherError) := by
  refine ⟨?_, ?_, ?_, ?_⟩
  · intro v h
    simp [sskfRiccatiSolve, pyTryExcept, h]
  · intro h
    simp [sskfRiccatiSolve, pyTryExcept, h, List.find?]
  · intro h
    refine ⟨?_, ?_, ?_⟩
    · intro v h2
      simp only [sskfRiccatiSolve, pyTryExcept, h, h2, List.find?]
      rfl
    · intro e h2 hve
      cases e with
      | linAlgError =>
        simp only [sskfRiccatiSolve, pyTryExcept, h, h2, List.find?]
        rfl
      | valueError =>
        simp only [sskfRiccatiSolve, pyTryExcept, h, h2, List.find?]
        rfl
      | otherError => cases hve
    · intro h2
      simp only [sskfRiccatiSolve, pyTryExcept, h, h2, List.find?]
      rfl
  · intro h
    simp only [sskfRiccatiSolve, pyTryExcept, h, List.find?]
    rfl

/-- Witness for the amended C4: a run in which the unbalanced solve raises
a plain value error and the stabilizing solver raises a value error ends
with the non-stabilizing solver's successful outcome. -/
theorem riccati_chain_characterization_witness :
    sskfRiccatiSolve (fun s =>
      match s with
      | RiccatiSolver.unbalanced => Except.error PyErr.valueError
      | RiccatiSolver.balanced => Except.ok (9 : ℚ)
      | RiccatiSolver.stabilizing => Except.error PyErr.valueError
      | RiccatiSolver.nonStabilizing => Except.ok (7 : ℚ)) = Except.ok (7 : ℚ) :=
  (((riccati_chain_characterization (fun s =>
      match s with
      | RiccatiSolver.unbalanced => Except.error PyErr.valueError
      | RiccatiSolver.balanced => Except.ok (9 : ℚ)
      | RiccatiSolver.stabilizing => Except.error PyErr.valueError
      | RiccatiSolver.nonStabilizing => Except.ok (7 : ℚ))).2.2.1 rfl).2.1
    PyErr.valueError rfl rfl)

/-- C6 counterexample: supplying the shared strength and the independent
pair simultaneously to the public fit raises nothing — the call succeeds,
so the claimed validation error does not exist. -/
theorem fit_lambda_conflict_counterexample :
    fitForwardedStrengths none (some 1) (some 2) (some 3) =
      Except.ok (some 1, none, none) := rfl

/-- C6 amended: `NeuraLVAR.fit` never validates the regularization
arguments; it accepts any combination of the shared strength and the
independent pair, silently drops the pair, and invokes the internal fit
with the pair disabled (`lb=None, la=None` are hard-coded at the call). -/
theorem fit_lambda_pair_ignored (restriction : Option (List Char))
    (lambda2 lb la : Option ℚ) :
    fitForwardedStrengths restriction lambda2 lb la =
      Except.ok (lambda2, none, none) := by
  simp [fitForwardedStrengths, fitGuardRaises_eq_false]

/-- C7 (code bug): for the malformed restriction string "abc" (no `->`
separator) the guard of the public fit does not raise — the expression
`(restriction is None or re.search('->', restriction)) is False` can never
be True since the left side evaluates to True, a Match object, or None,
never the object False — although the guard's own error message says such
a string must be rejected. -/
theorem fit_restriction_guard_dead :
    fitGuardRaises (some "abc".data) = false ∧
    containsArrow "abc".data = false ∧
    fitGuardIntended (some "abc".data) = true := by
  refine ⟨fitGuardRaises_eq_false _, ?_, ?_⟩ <;> decide

/-- C8: any restriction string that parses into index groups containing an
index outside the valid source range (index ≥ m) makes `_fit` fail with a
ValueError in its restriction phase, so the EM loop never produces a trace. -/
theorem fit_restriction_range_check (m p maxIter : Nat) (s : List Char)
    (ll rq : Nat → ℚ) (relTol : ℚ) (is js : List Int)
    (hparse : parseRestriction s = some (is, js))
    (hrange : (∃ i ∈ is, (m : Int) ≤ i) ∨ (∃ j ∈ js, (m : Int) ≤ j)) :
    fitModelRun m p maxIter (some s) ll rq relTol =
      Except.error PyErr.valueError := by
  have hany : (is.any (fun i => decide ((m : Int) ≤ i)) ||
      js.any (fun j => decide ((m : Int) ≤ j))) = true := by
    rw [Bool.or_eq_true, List.any_eq_true, List.any_eq_true]
    rcases hrange with ⟨i, hi, hmi⟩ | ⟨j, hj, hmj⟩
    · exact Or.inl ⟨i, hi, decide_eq_true hmi⟩
    · exact Or.inr ⟨j, hj, decide_eq_true hmj⟩
  have hphase : fitRestrictionPhase m p (some s) = Except.error PyErr.valueError := by
    simp only [fitRestrictionPhase, hparse, hany, if_true]
  simp only [fitModelRun, hphase]

/-- Witness for C8: restriction "3->1" with m = 2 sources fails with a
ValueError before any EM iteration. -/
theorem fit_restriction_range_witness :
    fitModelRun 2 1 1 (some "3->1".data) (fun _ => 0) (fun _ => 0) 0 =
      Except.error PyErr.valueError :=
  fit_restriction_range_check 2 1 1 "3->1".data (fun _ => 0) (fun _ => 0) 0
    [3] [1] (by decide) (Or.inl ⟨3, by decide, by decide⟩)

/-- C9: for every model (a, f, k derived from any Riccati solution) and every
input sequence, the one-step prediction at t = 0 is exactly the zero vector:
row 0 of the predicted latent sequence is zero in the smoother's forward
pass, and the prediction-only variant's observation-space prediction at
t = 0 is zero. -/
theorem sskf_prediction_zero_at_zero {dx dy : Nat}
    (a : Matrix (Fin dx) (Fin dx) ℚ) (f : Matrix (Fin dy) (Fin dx) ℚ)
    (k : Matrix (Fin dx) (Fin dy) ℚ) (y : Nat → Fin dy → ℚ) :
    sskfPredictedLatent a f k y 0 = 0 ∧ sskfPredictionObs a f k y 0 = 0 := by
  constructor
  · rfl
  · show f.mulVec (sskfPredictedLatent a f k y 0) = 0
    have h0 : sskfPredictedLatent a f k y 0 = 0 := rfl
    rw [h0, Matrix.mulVec_zero]

/-- C10: the reshaping helpers are mutually inverse on every in-shape
index — `_unravel_a (_ravel_a a)` recovers the (p, m, m) tensor and
`_ravel_a (_unravel_a b)` recovers the (m, m*p) matrix. -/
theorem ravelA_unravelA_inverse (p m : Nat) (a : Nat → Nat → Nat → ℚ)
    (b : Nat → Nat → ℚ) (hm : 0 < m) :
    (∀ l i j, l < p → i < m → j < m →
      unravelA m (ravelA m a) l i j = a l i j) ∧
    (∀ i c, i < m → c < m * p →
      ravelA m (unravelA m b) i c = b i c) := by
  constructor
  · intro l i j _ _ hj
    unfold unravelA ravelA
    have hcomm : l * m + j = j + m * l := by ring
    have hdiv : (l * m + j) / m = l := by
      rw [hcomm, Nat.add_mul_div_left _ _ hm, Nat.div_eq_of_lt hj, Nat.zero_add]
    have hmod : (l * m + j) % m = j := by
      rw [hcomm, Nat.add_mul_mod_self_left, Nat.mod_eq_of_lt hj]
    rw [hdiv, hmod]
  · intro i c _ _
    unfold ravelA unravelA
    congr 1
    rw [Nat.mul_comm (c / m) m, Nat.div_add_mod]

/-- Witness for C10 on a concrete order-2, 3-source tensor at index
(lag 1, row 2, column 0). -/
theorem ravelA_unravelA_witness :
    0 < 3 ∧
    unravelA 3 (ravelA 3 (fun l i j => ((l * 9 + i * 3 + j : Nat) : ℚ))) 1 2 0 =
      (fun l i j => ((l * 9 + i * 3 + j : Nat) : ℚ)) 1 2 0 :=
  ⟨by decide,
   (ravelA_unravelA_inverse 2 3 (fun l i j => ((l * 9 + i * 3 + j : Nat) : ℚ))
      (fun _ _ => 0) (by decide)).1 1 2 0 (by decide) (by decide) (by decide)⟩

/-- C5 counterexample: a two-fold, three-point grid on which the across-fold
mean held-out log-likelihood (criterion row 0) peaks at the last grid point
while the mean penalized-norm criterion (row 1) peaks at the first. The
source selects strength 1 (stability minimizer below the row-0 argmax); the
claim's policy — restricting by the penalized-norm argmax — would select 5.
The estimation-stability branch therefore does not restrict by the
penalized-norm criterion. -/
theorem selectLambda_criterion_counterexample :
    selectBestLambda true [[0, 0, 1], [0, 0, 1]] [[1, 0, 0], [1, 0, 0]]
        [2, 0, 0] [5, 1, 0] ≠
      selectBestLambdaClaimed true [[0, 0, 1], [0, 0, 1]] [[1, 0, 0], [1, 0, 0]]
        [2, 0, 0] [5, 1, 0] := by
  have hcode : selectBestLambda true [[0, 0, 1], [0, 0, 1]]
      [[1, 0, 0], [1, 0, 0]] [2, 0, 0] [5, 1, 0] = 1 := by
    norm_num [selectBestLambda, colMeansList, argmaxIdx, argminIdx,
      List.range_succ, List.range_zero]
  have hclaim : selectBestLambdaClaimed true [[0, 0, 1], [0, 0, 1]]
      [[1, 0, 0], [1, 0, 0]] [2, 0, 0] [5, 1, 0] = 5 := by
    norm_num [selectBestLambdaClaimed, colMeansList, argmaxIdx, argminIdx,
      List.range_succ, List.range_zero]
  rw [hcode, hclaim]
  norm_num

/-- C5 amended: without the stability criterion the selected strength is the
grid point maximizing the across-fold mean penalized-norm criterion (row 1);
with it, the boundary index maximizes the across-fold mean held-out
log-likelihood criterion (row 0), the candidates are the grid points
strictly before that boundary, the stability minimizer among them is
selected, and the boundary point itself is the fallback when the candidate
slice is empty. -/
theorem selectLambda_policy (useEs : Bool) (cv0 cv1 : List (List ℚ))
    (esPath lams : List ℚ) (hlen : 0 < lams.length) :
    (useEs = false →
      ∃ jsel, jsel < lams.length ∧
        selectBestLambda useEs cv0 cv1 esPath lams = lams.getD jsel 0 ∧
        ∀ kk, kk < lams.length →
          (colMeansList cv1 lams.length).getD kk 0 ≤
            (colMeansList cv1 lams.length).getD jsel 0) ∧
    (useEs = true →
      (argmaxIdx (colMeansList cv0 lams.length) < lams.length ∧
        ∀ kk, kk < lams.length →
          (colMeansList cv0 lams.length).getD kk 0 ≤
            (colMeansList cv0 lams.length).getD
              (argmaxIdx (colMeansList cv0 lams.length)) 0) ∧
      ((esPath.take (argmaxIdx (colMeansList cv0 lams.length))).isEmpty = true →
        selectBestLambda useEs cv0 cv1 esPath lams =
          lams.getD (argmaxIdx (colMeansList cv0 lams.length)) 0) ∧
      ((esPath.take (argmaxIdx (colMeansList cv0 lams.length))).isEmpty = false →
        ∃ jsel, jsel < argmaxIdx (colMeansList cv0 lams.length) ∧
          selectBestLambda useEs cv0 cv1 esPath lams = lams.getD jsel 0 ∧
          ∀ kk, kk < argmaxIdx (colMeansList cv0 lams.length) →
            kk < esPath.length →
            esPath.getD jsel 0 ≤ esPath.getD kk 0)) := by
  have hclen0 : (colMeansList cv0 lams.length).length = lams.length := by
    simp [colMeansList]
  have hclen1 : (colMeansList cv1 lams.length).length = lams.length := by
    simp [colMeansList]
  constructor
  · intro hE
    subst hE
    have hne1 : colMeansList cv1 lams.length ≠ [] := by
      intro h
      rw [h] at hclen1
      simp at hclen1
      omega
    refine ⟨argmaxIdx (colMeansList cv1 lams.length), ?_, rfl, ?_⟩
    · have := argmaxIdx_lt (colMeansList cv1 lams.length) hne1
      omega
    · intro kk hkk
      exact argmaxIdx_spec (colMeansList cv1 lams.length) kk (by omega)
  · intro hE
    subst hE
    have hne0 : colMeansList cv0 lams.length ≠ [] := by
      intro h
      rw [h] at hclen0
      simp at hclen0
      omega
    have hBlt : argmaxIdx (colMeansList cv0 lams.length) < lams.length := by
      have := argmaxIdx_lt (colMeansList cv0 lams.length) hne0
      omega
    refine ⟨⟨hBlt, ?_⟩, ?_, ?_⟩
    · intro kk hkk
      exact argmaxIdx_spec (colMeansList cv0 lams.length) kk (by omega)
    · intro hemp
      show (if (esPath.take (argmaxIdx (colMeansList cv0 lams.length))).isEmpty
            then lams.getD (argmaxIdx (colMeansList cv0 lams.length)) 0
            else lams.getD
              (argminIdx (esPath.take (argmaxIdx (colMeansList cv0 lams.length)))) 0) =
          lams.getD (argmaxIdx (colMeansList cv0 lams.length)) 0
      rw [hemp]
      simp
    · intro hemp
      have hne : esPath.take (argmaxIdx (colMeansList cv0 lams.length)) ≠ [] := by
        intro h
        rw [h] at hemp
        cases hemp
      have hjlt := argminIdx_lt _ hne
      rw [List.length_take] at hjlt
      have hjB : argminIdx (esPath.take (argmaxIdx (colMeansList cv0 lams.length))) <
          argmaxIdx (colMeansList cv0 lams.length) := by omega
      refine ⟨argminIdx (esPath.take (argmaxIdx (colMeansList cv0 lams.length))),
        hjB, ?_, ?_⟩
      · show (if (esPath.take (argmaxIdx (colMeansList cv0 lams.length))).isEmpty
              then lams.getD (argmaxIdx (colMeansList cv0 lams.length)) 0
              else lams.getD
                (argminIdx (esPath.take (argmaxIdx (colMeansList cv0 lams.length)))) 0) =
            lams.getD
              (argminIdx (esPath.take (argmaxIdx (colMeansList cv0 lams.length)))) 0
        rw [hemp]
        simp
      · intro kk hkkB hkkLen
        have hkk' : kk < (esPath.take (argmaxIdx (colMeansList cv0 lams.length))).length := by
          rw [List.length_take]
          omega
        have hmin := argminIdx_spec
          (esPath.take (argmaxIdx (colMeansList cv0 lams.length))) kk hkk'
        rw [getD_take_eq esPath _ kk hkkB, getD_take_eq esPath _ _ hjB] at hmin
        exact hmin

/-- Witness for the amended C5 without the stability criterion: on a
single-fold run with penalized-norm row [1, 0] over strengths [5, 1], the
policy theorem instantiates to a selected maximizer. -/
theorem selectLambda_policy_witness :
    ∃ jsel, jsel < ([5, 1] : List ℚ).length ∧
      selectBestLambda false [[0, 1]] [[1, 0]] [] [5, 1] =
        ([5, 1] : List ℚ).getD jsel 0 ∧
      ∀ kk, kk < ([5, 1] : List ℚ).length →
        (colMeansList [[1, 0]] ([5, 1] : List ℚ).length).getD kk 0 ≤
          (colMeansList [[1, 0]] ([5, 1] : List ℚ).length).getD jsel 0 :=
  (selectLambda_policy false [[0, 1]] [[1, 0]] [] [5, 1] (by norm_num)).1 rfl
